import Mathlib

/-!
Verification of the text templating engine in
`src/components/cato-services/util/utils.py` (functions
`_evaluate_conditions`, `_replace_for_loops`, `build_string_from_template`).

Text is modelled as `List Char` (Python `str`).  Python's
`str.replace(old, new)` (replace all non-overlapping occurrences, scanning
left to right) is `replaceAll`; it is defined with an explicit fuel equal to
the length of the scanned text so that every definition stays structurally
recursive and computable by `decide`.  One unit of fuel is spent per scanned
position and each step consumes at least one character, so the initial fuel
is never exhausted (the fuel-zero branches are unreachable from the
wrappers; see the length-decrease lemmas below).

The `re.findall` calls of `_evaluate_conditions` use the tempered pattern
`(<if K>((?!<if K>.*?</if K>).)*?</if K>)` (with `re.S`): scanning left to
right, a match is an opener followed by the shortest body reaching a closer
such that the body contains no further opener; on failure at one position
the scan advances one character; after a match it resumes after the match.
`findRegions` implements exactly that scan.  The closer of a region starts
with the two characters "</" while an opener starts with "<" followed by a
letter, so no occurrence of an opener can straddle the boundary between
body and closer; hence the body-local `containsSub` test is equivalent to
the regex lookahead (which inspects the rest of the whole text).

The for-loop pattern `(<for key>(.*?)</for key>)` is not tempered and the
code only uses match 0 and emptiness of the match list, so `findForMatch`
returns the first opener occurrence paired with the lazily matched body (up
to the first closer after it); the match list is empty iff no closer occurs
after the first opener, in which case no later opener has a closer either.
-/

/-- Decidable substring occurrence: `containsSub pat s` is `true` iff `pat`
occurs contiguously in `s` (Python `s.find(pat) != -1`). -/
def containsSub (pat : List Char) : List Char → Bool
  | [] => pat.isPrefixOf ([] : List Char)
  | c :: cs => pat.isPrefixOf (c :: cs) || containsSub pat cs

/-- Number of positions of `s` at which `pat` occurs (occurrences counted at
every starting position). -/
def countSub (pat : List Char) : List Char → Nat
  | [] => if pat.isPrefixOf ([] : List Char) then 1 else 0
  | c :: cs => (if pat.isPrefixOf (c :: cs) then 1 else 0) + countSub pat cs

/-- Split `l` at the first occurrence of `pat`: returns
`some (before, after)` with `l = before ++ pat ++ after` and no occurrence
of `pat` starting inside `before`. -/
def splitAtFirst (pat : List Char) : List Char → Option (List Char × List Char)
  | [] => if pat.isPrefixOf ([] : List Char) then some ([], []) else none
  | c :: cs =>
    if pat.isPrefixOf (c :: cs) then
      some ([], List.drop pat.length (c :: cs))
    else
      match splitAtFirst pat cs with
      | some (pre, post) => some (c :: pre, post)
      | none => none

/-- Python `str.replace`: replace every non-overlapping occurrence of `pat`
by `repl`, scanning left to right, with explicit fuel (one unit per scanned
position).  The empty pattern is never used by the engine; it is treated as
no occurrence. -/
def replaceAllFuel (pat repl : List Char) : Nat → List Char → List Char
  | 0, s => s
  | _ + 1, [] => []
  | fuel + 1, c :: cs =>
    if !pat.isEmpty && pat.isPrefixOf (c :: cs) then
      repl ++ replaceAllFuel pat repl fuel (List.drop pat.length (c :: cs))
    else
      c :: replaceAllFuel pat repl fuel cs

/-- Python `s.replace(pat, repl)` with the canonical fuel. -/
def replaceAll (pat repl s : List Char) : List Char :=
  replaceAllFuel pat repl s.length s

/-- The scan performed by `re.findall` with the tempered region pattern:
returns the list of `(full match, body)` pairs, in order.  At a position
where the opener matches, the candidate body runs to the first closer; the
candidate is accepted iff the body contains no further opener, otherwise
the scan advances one character (regex backtracking). -/
def findRegionsFuel (op cl : List Char) : Nat → List Char → List (List Char × List Char)
  | 0, _ => []
  | _ + 1, [] => []
  | fuel + 1, c :: cs =>
    if op.isPrefixOf (c :: cs) then
      match splitAtFirst cl (List.drop op.length (c :: cs)) with
      | some (body, after) =>
        if containsSub op body then
          findRegionsFuel op cl fuel cs
        else
          (op ++ body ++ cl, body) :: findRegionsFuel op cl fuel after
      | none => findRegionsFuel op cl fuel cs
    else
      findRegionsFuel op cl fuel cs

/-- Region scan with the canonical fuel. -/
def findRegions (op cl s : List Char) : List (List Char × List Char) :=
  findRegionsFuel op cl s.length s

/-- The literal opener `<if False>`. -/
def openFalse : List Char := "<if False>".toList

/-- The literal closer `</if False>`. -/
def closeFalse : List Char := "</if False>".toList

/-- The literal opener `<if True>`. -/
def openTrue : List Char := "<if True>".toList

/-- The literal closer `</if True>`. -/
def closeTrue : List Char := "</if True>".toList

/-- One iteration of the first `while` loop of `_evaluate_conditions`:
`re.findall` the non-nested `<if False>` regions, raise on an empty match
list, otherwise `result.replace(match, "")` for each match in order. -/
def falseStep (result : List Char) : Except String (List Char) :=
  match findRegions openFalse closeFalse result with
  | [] => Except.error ("Unmatched <if False> tag")
  | conds => Except.ok (conds.foldl (fun r cond => replaceAll cond.1 [] r) result)

/-- One iteration of the second `while` loop of `_evaluate_conditions`:
as `falseStep` except each matched region is replaced by its body
(group 1 of the regex). -/
def trueStep (result : List Char) : Except String (List Char) :=
  match findRegions openTrue closeTrue result with
  | [] => Except.error ("Unmatched <if True> tag")
  | conds => Except.ok (conds.foldl (fun r cond => replaceAll cond.1 cond.2 r) result)

/-- `while result.find("<if False>") != -1:` — iterate `falseStep`.  Fuel is
spent once per iteration; every successful iteration strictly decreases the
length of the text (lemma `falseStep_ok_lt`), so the canonical fuel
`length + 1` is never exhausted. -/
def falseLoopFuel : Nat → List Char → Except String (List Char)
  | 0, _ => Except.error ("Unmatched <if False> tag")
  | fuel + 1, result =>
    if containsSub openFalse result then
      match falseStep result with
      | Except.error e => Except.error e
      | Except.ok r => falseLoopFuel fuel r
    else
      Except.ok result

/-- `while result.find("<if True>") != -1:` — iterate `trueStep`. -/
def trueLoopFuel : Nat → List Char → Except String (List Char)
  | 0, _ => Except.error ("Unmatched <if True> tag")
  | fuel + 1, result =>
    if containsSub openTrue result then
      match trueStep result with
      | Except.error e => Except.error e
      | Except.ok r => trueLoopFuel fuel r
    else
      Except.ok result

/-- `_evaluate_conditions`: run the `<if False>` loop to completion, then
the `<if True>` loop on its output.  A raised `Exception` is modelled as
`Except.error` with the source's message. -/
def _evaluate_conditions (result : List Char) : Except String (List Char) :=
  match falseLoopFuel (result.length + 1) result with
  | Except.error e => Except.error e
  | Except.ok r => trueLoopFuel (r.length + 1) r

/-- The placeholder text for a binding name: Python's
`f"{{{{ {key} }}}}"`, i.e. two opening braces, a space, the name, a space,
two closing braces. -/
def placeholder (key : List Char) : List Char :=
  "\x7b\x7b ".toList ++ key ++ " \x7d\x7d".toList

/-- The literal opening tag `<for key>`. -/
def forOpen (key : List Char) : List Char :=
  "<for ".toList ++ key ++ ">".toList

/-- The literal closing tag `</for key>`. -/
def forClose (key : List Char) : List Char :=
  "</for ".toList ++ key ++ ">".toList

/-- First match of `re.findall(rf'(<for {key}>(.*?)</for {key}>)', s, re.S)`:
the first occurrence of the opener, with the lazy body running to the first
closer after it.  `none` exactly when the match list is empty (if the first
opener has no closer after it, no later opener has one either). -/
def findForMatch (key : List Char) (result : List Char) : Option (List Char × List Char) :=
  match splitAtFirst (forOpen key) result with
  | none => none
  | some (_, rest) =>
    match splitAtFirst (forClose key) rest with
    | none => none
    | some (body, _) => some (forOpen key ++ body ++ forClose key, body)

/-- A scalar binding value, rendered by Python `str()`: a string renders as
itself, booleans as `True`/`False`, integers in decimal. -/
inductive Scalar where
  | s (v : List Char)
  | b (v : Bool)
  | i (v : Int)

/-- Python `str()` on a scalar. -/
def Scalar.render : Scalar → List Char
  | .s v => v
  | .b true => "True".toList
  | .b false => "False".toList
  | .i n => (toString n).toList

/-- A value of the bindings mapping: `isinstance(value, list)` distinguishes
a scalar from an ordered list of element mappings (each element mapping an
ordered association list from name to scalar). -/
inductive Value where
  | scalar (v : Scalar)
  | list (elems : List (List (List Char × Scalar)))

/-- The inner loop of `_replace_for_loops`: one instance of the body for one
element mapping; each `(k, v)` of the element mapping in order performs
`for_item.replace(f"{{{{ {k} }}}}", str(v))`. -/
def instantiateBody (for_body : List Char) (list_element : List (List Char × Scalar)) : List Char :=
  list_element.foldl (fun for_item kv => replaceAll (placeholder kv.1) kv.2.render for_item) for_body

/-- `_replace_for_loops(result, key, value)`: if the regex has no match,
return `result` unchanged; otherwise build the concatenation of one
instance per list element (in order) and `result.replace(full_match, it)`. -/
def _replace_for_loops (result : List Char) (key : List Char) (value : List (List (List Char × Scalar))) : List Char :=
  match findForMatch key result with
  | none => result
  | some (full, for_body) =>
    replaceAll full (value.foldl (fun acc e => acc ++ instantiateBody for_body e) []) result

/-- The first `for` loop of `build_string_from_template`: for each binding
in mapping order whose value is not a list, replace its placeholder
globally in the working text. -/
def scalarFold (replacements : List (List Char × Value)) (result : List Char) : List Char :=
  replacements.foldl (fun r kv =>
    match kv.2 with
    | Value.scalar v => replaceAll (placeholder kv.1) v.render r
    | Value.list _ => r) result

/-- The second `for` loop of `build_string_from_template`: for each binding
in mapping order whose value is a list, apply `_replace_for_loops`. -/
def loopFold (replacements : List (List Char × Value)) (result : List Char) : List Char :=
  replacements.foldl (fun r kv =>
    match kv.2 with
    | Value.scalar _ => r
    | Value.list v => _replace_for_loops r kv.1 v) result

/-- `build_string_from_template(template, replacements)`: scalar pass, then
`_evaluate_conditions`, then the for-loop pass, then `_evaluate_conditions`
again; its result is returned.  An exception anywhere aborts the render
with no partial output. -/
def build_string_from_template (template : List Char) (replacements : List (List Char × Value)) : Except String (List Char) :=
  match _evaluate_conditions (scalarFold replacements template) with
  | Except.error e => Except.error e
  | Except.ok r => _evaluate_conditions (loopFold replacements r)

/-- The scalar bindings of the mapping, in original order (spec 4.5 step 1). -/
def scalarBindings (replacements : List (List Char × Value)) : List (List Char × Scalar) :=
  replacements.filterMap (fun kv =>
    match kv.2 with
    | Value.scalar v => some (kv.1, v)
    | Value.list _ => none)

/-- The list bindings of the mapping, in original order (spec 4.5 step 1). -/
def listBindings (replacements : List (List Char × Value)) : List (List Char × List (List (List Char × Scalar))) :=
  replacements.filterMap (fun kv =>
    match kv.2 with
    | Value.scalar _ => none
    | Value.list v => some (kv.1, v))

/-- Modelled from the spec's words (4.1/4.5): one scalar-substitution pass
over the given scalar bindings, in order. -/
def substitute_scalars (bindings : List (List Char × Scalar)) (text : List Char) : List Char :=
  bindings.foldl (fun r kv => replaceAll (placeholder kv.1) kv.2.render r) text

/-- Modelled from the spec's words (4.3/4.5): one loop-expansion pass per
list binding, in order, each application's output fed into the next. -/
def expand_loops (bindings : List (List Char × List (List (List Char × Scalar)))) (text : List Char) : List Char :=
  bindings.foldl (fun r kv => _replace_for_loops r kv.1 kv.2) text

/-- Decidable equality for render results, so concrete renders can be
settled by `decide`. -/
instance exceptStringListCharDecEq : DecidableEq (Except String (List Char)) :=
  fun a b =>
    match a, b with
    | Except.error e, Except.error f =>
      if h : e = f then isTrue (congrArg Except.error h)
      else isFalse (fun hc => h (Except.error.inj hc))
    | Except.error _, Except.ok _ => isFalse (fun hc => Except.noConfusion hc)
    | Except.ok _, Except.error _ => isFalse (fun hc => Except.noConfusion hc)
    | Except.ok x, Except.ok y =>
      if h : x = y then isTrue (congrArg Except.ok h)
      else isFalse (fun hc => h (Except.ok.inj hc))

theorem isPrefixOf_nil_eq {pat : List Char} (h : pat.isPrefixOf ([] : List Char) = true) : pat = [] := by
  cases pat with
  | nil => rfl
  | cons a as => simp [List.isPrefixOf] at h

theorem prefix_append_drop : ∀ (pat l : List Char), pat.isPrefixOf l = true → l = pat ++ List.drop pat.length l := by
  intro pat
  induction pat with
  | nil => intro l _; simp
  | cons a as ih =>
    intro l h
    cases l with
    | nil => simp [List.isPrefixOf] at h
    | cons b bs =>
      simp only [List.isPrefixOf, Bool.and_eq_true, beq_iff_eq] at h
      obtain ⟨rfl, hpre⟩ := h
      simpa using ih bs hpre

theorem isPrefixOf_append_self : ∀ (l t : List Char), l.isPrefixOf (l ++ t) = true := by
  intro l t
  induction l with
  | nil => simp [List.isPrefixOf]
  | cons a as ih => simp [List.isPrefixOf, ih]

theorem containsSub_of_isPrefixOf {pat l : List Char} (h : pat.isPrefixOf l = true) : containsSub pat l = true := by
  cases l with
  | nil => simpa [containsSub] using h
  | cons c cs => simp [containsSub, h]

theorem containsSub_cons_of {pat cs : List Char} (c : Char) (h : containsSub pat cs = true) : containsSub pat (c :: cs) = true := by
  simp [containsSub, h]

theorem splitAtFirst_eq {pat : List Char} : ∀ {l pre post : List Char}, splitAtFirst pat l = some (pre, post) → l = pre ++ pat ++ post := by
  intro l
  induction l with
  | nil =>
    intro pre post h
    simp only [splitAtFirst] at h
    split at h
    · rename_i hp
      have hpat := isPrefixOf_nil_eq hp
      simp only [Option.some.injEq, Prod.mk.injEq] at h
      obtain ⟨rfl, rfl⟩ := h
      simp [hpat]
    · exact absurd h (by simp)
  | cons c cs ih =>
    intro pre post h
    simp only [splitAtFirst] at h
    split at h
    · rename_i hp
      simp only [Option.some.injEq, Prod.mk.injEq] at h
      obtain ⟨rfl, rfl⟩ := h
      simpa using prefix_append_drop pat (c :: cs) hp
    · cases hrec : splitAtFirst pat cs with
      | none => rw [hrec] at h; exact absurd h (by simp)
      | some pr =>
        rw [hrec] at h
        cases pr with
        | mk pre' post' =>
          simp only [Option.some.injEq, Prod.mk.injEq] at h
          obtain ⟨rfl, rfl⟩ := h
          have hd := ih hrec
          simp [hd]

theorem replaceAllFuel_not_contains {pat repl : List Char} : ∀ (fuel : Nat) (s : List Char), containsSub pat s = false → replaceAllFuel pat repl fuel s = s := by
  intro fuel
  induction fuel with
  | zero => intro s _; rfl
  | succ f ih =>
    intro s hc
    cases s with
    | nil => rfl
    | cons c cs =>
      simp only [containsSub, Bool.or_eq_false_iff] at hc
      obtain ⟨hp, hcs⟩ := hc
      have hcond : (!pat.isEmpty && pat.isPrefixOf (c :: cs)) = false := by
        rw [hp]
        simp
      simp [replaceAllFuel, hcond, ih cs hcs]

theorem replaceAll_not_contains {pat repl s : List Char} (h : containsSub pat s = false) : replaceAll pat repl s = s :=
  replaceAllFuel_not_contains s.length s h

theorem replaceAllFuel_length_le {pat repl : List Char} (hlen : repl.length ≤ pat.length) : ∀ (fuel : Nat) (s : List Char), (replaceAllFuel pat repl fuel s).length ≤ s.length := by
  intro fuel
  induction fuel with
  | zero => intro s; exact Nat.le_refl _
  | succ f ih =>
    intro s
    cases s with
    | nil => exact Nat.le_refl _
    | cons c cs =>
      simp only [replaceAllFuel]
      split
      · rename_i hcond
        simp only [Bool.and_eq_true, Bool.not_eq_true'] at hcond
        obtain ⟨_, hp⟩ := hcond
        have hdec := prefix_append_drop pat (c :: cs) hp
        have hlens : (c :: cs).length = pat.length + (List.drop pat.length (c :: cs)).length := by
          conv_lhs => rw [hdec]
          simp
        have hrec := ih (List.drop pat.length (c :: cs))
        simp only [List.length_append]
        omega
      · simpa using ih cs

theorem replaceAll_length_le {pat repl : List Char} (hlen : repl.length ≤ pat.length) (s : List Char) : (replaceAll pat repl s).length ≤ s.length :=
  replaceAllFuel_length_le hlen s.length s

theorem replaceAllFuel_length_lt {pat repl : List Char} (hlen : repl.length < pat.length) : ∀ (fuel : Nat) (s : List Char), s.length ≤ fuel → containsSub pat s = true → (replaceAllFuel pat repl fuel s).length < s.length := by
  intro fuel
  induction fuel with
  | zero =>
    intro s hf hc
    have hs : s = [] := List.length_eq_zero.mp (Nat.le_zero.mp hf)
    subst hs
    cases pat with
    | nil => simp at hlen
    | cons a as => simp [containsSub, List.isPrefixOf] at hc
  | succ f ih =>
    intro s hf hc
    cases s with
    | nil =>
      cases pat with
      | nil => simp at hlen
      | cons a as => simp [containsSub, List.isPrefixOf] at hc
    | cons c cs =>
      simp only [replaceAllFuel]
      have hpatne : pat.isEmpty = false := by
        cases pat with
        | nil => simp at hlen
        | cons a as => rfl
      by_cases hp : pat.isPrefixOf (c :: cs) = true
      · rw [if_pos (by simp [hpatne, hp])]
        have hdec := prefix_append_drop pat (c :: cs) hp
        have hlens : (c :: cs).length = pat.length + (List.drop pat.length (c :: cs)).length := by
          conv_lhs => rw [hdec]
          simp
        have hrec := replaceAllFuel_length_le (Nat.le_of_lt hlen) f (List.drop pat.length (c :: cs))
        simp only [List.length_append]
        omega
      · rw [if_neg (by simp [hp])]
        have hccs : containsSub pat cs = true := by
          simp only [containsSub, Bool.or_eq_true] at hc
          rcases hc with hc | hc
          · exact absurd hc hp
          · exact hc
        have hcf : cs.length ≤ f := by
          simp only [List.length_cons] at hf
          omega
        have := ih cs hcf hccs
        simpa using this

theorem replaceAll_length_lt {pat repl s : List Char} (hlen : repl.length < pat.length) (hc : containsSub pat s = true) : (replaceAll pat repl s).length < s.length :=
  replaceAllFuel_length_lt hlen s.length s (Nat.le_refl _) hc

theorem findRegionsFuel_shape {op cl : List Char} : ∀ (fuel : Nat) (s full body : List Char), (full, body) ∈ findRegionsFuel op cl fuel s → full = op ++ body ++ cl := by
  intro fuel
  induction fuel with
  | zero => intro s full body h; simp [findRegionsFuel] at h
  | succ f ih =>
    intro s full body h
    cases s with
    | nil => simp [findRegionsFuel] at h
    | cons c cs =>
      simp only [findRegionsFuel] at h
      split at h
      · split at h
        · split at h
          · exact ih cs full body h
          · rcases List.mem_cons.mp h with heq | hmem
            · simp only [Prod.mk.injEq] at heq
              obtain ⟨rfl, rfl⟩ := heq
              rfl
            · exact ih _ full body hmem
        · exact ih cs full body h
      · exact ih cs full body h

theorem findRegionsFuel_head_contains {op cl : List Char} : ∀ (fuel : Nat) (s full body : List Char) (rest : List (List Char × List Char)), findRegionsFuel op cl fuel s = (full, body) :: rest → containsSub full s = true := by
  intro fuel
  induction fuel with
  | zero => intro s full body rest h; simp [findRegionsFuel] at h
  | succ f ih =>
    intro s full body rest h
    cases s with
    | nil => simp [findRegionsFuel] at h
    | cons c cs =>
      simp only [findRegionsFuel] at h
      split at h
      · rename_i hp
        split at h
        · rename_i body' after hsp
          split at h
          · exact containsSub_cons_of c (ih cs full body rest h)
          · simp only [List.cons.injEq, Prod.mk.injEq] at h
            obtain ⟨⟨hfull, hbody⟩, _⟩ := h
            have h1 := prefix_append_drop op (c :: cs) hp
            have h2 := splitAtFirst_eq hsp
            have hdecomp : c :: cs = (op ++ body' ++ cl) ++ after := by
              rw [h1, h2]
              simp
            rw [hdecomp, ← hfull]
            exact containsSub_of_isPrefixOf (isPrefixOf_append_self _ _)
        · exact containsSub_cons_of c (ih cs full body rest h)
      · exact containsSub_cons_of c (ih cs full body rest h)

theorem foldl_replaceNil_le : ∀ (conds : List (List Char × List Char)) (s : List Char), (conds.foldl (fun r cond => replaceAll cond.1 [] r) s).length ≤ s.length := by
  intro conds
  induction conds with
  | nil => intro s; exact Nat.le_refl _
  | cons hd tl ih =>
    intro s
    simp only [List.foldl_cons]
    exact Nat.le_trans (ih _) (replaceAll_length_le (by simp) s)

theorem foldl_replaceBody_le : ∀ (conds : List (List Char × List Char)), (∀ cd ∈ conds, cd.2.length ≤ cd.1.length) → ∀ (s : List Char), (conds.foldl (fun r cond => replaceAll cond.1 cond.2 r) s).length ≤ s.length := by
  intro conds
  induction conds with
  | nil => intro _ s; exact Nat.le_refl _
  | cons hd tl ih =>
    intro hall s
    simp only [List.foldl_cons]
    have h1 : hd.2.length ≤ hd.1.length := hall hd (List.mem_cons_self hd tl)
    have h2 := ih (fun cd hcd => hall cd (List.mem_cons_of_mem hd hcd)) (replaceAll hd.1 hd.2 s)
    exact Nat.le_trans h2 (replaceAll_length_le h1 s)

theorem openFalse_length_pos : 0 < openFalse.length := by decide

theorem closeFalse_length_pos : 0 < closeFalse.length := by decide

theorem openTrue_length_pos : 0 < openTrue.length := by decide

theorem closeTrue_length_pos : 0 < closeTrue.length := by decide

theorem falseStep_ok_lt : ∀ (s r : List Char), falseStep s = Except.ok r → r.length < s.length := by
  intro s r h
  unfold falseStep at h
  cases hreg : findRegions openFalse closeFalse s with
  | nil => rw [hreg] at h; exact absurd h (by simp)
  | cons hd tl =>
    rw [hreg] at h
    simp only [Except.ok.injEq] at h
    subst h
    obtain ⟨full, body⟩ := hd
    have hregF : findRegionsFuel openFalse closeFalse s.length s = (full, body) :: tl := hreg
    have hc : containsSub full s = true := findRegionsFuel_head_contains s.length s full body tl hregF
    have hmemhd : (full, body) ∈ findRegionsFuel openFalse closeFalse s.length s := by
      rw [hregF]
      exact List.mem_cons_self _ _
    have hshape : full = openFalse ++ body ++ closeFalse :=
      findRegionsFuel_shape s.length s full body hmemhd
    have hfullpos : ([] : List Char).length < full.length := by
      rw [hshape]
      simp only [List.length_append, List.length_nil]
      have := openFalse_length_pos
      omega
    have h1 : (replaceAll full [] s).length < s.length := replaceAll_length_lt hfullpos hc
    calc (List.foldl (fun r cond => replaceAll cond.1 [] r) (replaceAll full [] s) tl).length
        ≤ (replaceAll full [] s).length := foldl_replaceNil_le tl _
      _ < s.length := h1

theorem trueStep_ok_lt : ∀ (s r : List Char), trueStep s = Except.ok r → r.length < s.length := by
  intro s r h
  unfold trueStep at h
  cases hreg : findRegions openTrue closeTrue s with
  | nil => rw [hreg] at h; exact absurd h (by simp)
  | cons hd tl =>
    rw [hreg] at h
    simp only [Except.ok.injEq] at h
    subst h
    obtain ⟨full, body⟩ := hd
    have hregF : findRegionsFuel openTrue closeTrue s.length s = (full, body) :: tl := hreg
    have hc : containsSub full s = true := findRegionsFuel_head_contains s.length s full body tl hregF
    have hmemhd : (full, body) ∈ findRegionsFuel openTrue closeTrue s.length s := by
      rw [hregF]
      exact List.mem_cons_self _ _
    have hshape : full = openTrue ++ body ++ closeTrue :=
      findRegionsFuel_shape s.length s full body hmemhd
    have hlt : body.length < full.length := by
      rw [hshape]
      simp only [List.length_append]
      have := openTrue_length_pos
      have := closeTrue_length_pos
      omega
    have h1 : (replaceAll full body s).length < s.length := replaceAll_length_lt hlt hc
    have hall : ∀ cd ∈ tl, cd.2.length ≤ cd.1.length := by
      intro cd hcd
      have hmemcd : (cd.1, cd.2) ∈ findRegionsFuel openTrue closeTrue s.length s := by
        rw [hregF]
        exact List.mem_cons_of_mem _ (by simpa using hcd)
      have hsh := findRegionsFuel_shape s.length s cd.1 cd.2 hmemcd
      rw [hsh]
      simp only [List.length_append]
      omega
    calc (List.foldl (fun r cond => replaceAll cond.1 cond.2 r) (replaceAll full body s) tl).length
        ≤ (replaceAll full body s).length := foldl_replaceBody_le tl hall _
      _ < s.length := h1

theorem falseLoopFuel_ok_no_opener : ∀ (fuel : Nat) (s r : List Char), falseLoopFuel fuel s = Except.ok r → containsSub openFalse r = false := by
  intro fuel
  induction fuel with
  | zero => intro s r h; exact absurd h (by simp [falseLoopFuel])
  | succ f ih =>
    intro s r h
    simp only [falseLoopFuel] at h
    split at h
    · cases hstep : falseStep s with
      | error e => rw [hstep] at h; exact absurd h (by simp)
      | ok s1 => rw [hstep] at h; exact ih s1 r h
    · rename_i hc
      simp only [Except.ok.injEq] at h
      subst h
      simpa using hc

theorem trueLoopFuel_ok_no_opener : ∀ (fuel : Nat) (s r : List Char), trueLoopFuel fuel s = Except.ok r → containsSub openTrue r = false := by
  intro fuel
  induction fuel with
  | zero => intro s r h; exact absurd h (by simp [trueLoopFuel])
  | succ f ih =>
    intro s r h
    simp only [trueLoopFuel] at h
    split at h
    · cases hstep : trueStep s with
      | error e => rw [hstep] at h; exact absurd h (by simp)
      | ok s1 => rw [hstep] at h; exact ih s1 r h
    · rename_i hc
      simp only [Except.ok.injEq] at h
      subst h
      simpa using hc

theorem falseLoopFuel_not_contains (f : Nat) (s : List Char) (h : containsSub openFalse s = false) : falseLoopFuel (f + 1) s = Except.ok s := by
  simp [falseLoopFuel, h]

theorem trueLoopFuel_not_contains (f : Nat) (s : List Char) (h : containsSub openTrue s = false) : trueLoopFuel (f + 1) s = Except.ok s := by
  simp [trueLoopFuel, h]

theorem falseLoopFuel_fuel_irrel : ∀ (f g : Nat) (s : List Char), s.length < f → s.length < g → falseLoopFuel f s = falseLoopFuel g s := by
  intro f
  induction f with
  | zero => intro g s hf _; omega
  | succ f ih =>
    intro g s hf hg
    cases g with
    | zero => omega
    | succ g =>
      simp only [falseLoopFuel]
      split
      · cases hstep : falseStep s with
        | error e => rfl
        | ok s1 =>
          have hlt := falseStep_ok_lt s s1 hstep
          exact ih g s1 (by omega) (by omega)
      · rfl

theorem trueLoopFuel_fuel_irrel : ∀ (f g : Nat) (s : List Char), s.length < f → s.length < g → trueLoopFuel f s = trueLoopFuel g s := by
  intro f
  induction f with
  | zero => intro g s hf _; omega
  | succ f ih =>
    intro g s hf hg
    cases g with
    | zero => omega
    | succ g =>
      simp only [trueLoopFuel]
      split
      · cases hstep : trueStep s with
        | error e => rfl
        | ok s1 =>
          have hlt := trueStep_ok_lt s s1 hstep
          exact ih g s1 (by omega) (by omega)
      · rfl

theorem eval_ok_no_true : ∀ (s out : List Char), _evaluate_conditions s = Except.ok out → containsSub openTrue out = false := by
  intro s out h
  unfold _evaluate_conditions at h
  cases hf : falseLoopFuel (s.length + 1) s with
  | error e => rw [hf] at h; exact absurd h (by simp)
  | ok r =>
    rw [hf] at h
    exact trueLoopFuel_ok_no_opener (r.length + 1) r out h

theorem eval_not_contains (s : List Char) (hf : containsSub openFalse s = false) (ht : containsSub openTrue s = false) : _evaluate_conditions s = Except.ok s := by
  unfold _evaluate_conditions
  rw [falseLoopFuel_not_contains s.length s hf]
  exact trueLoopFuel_not_contains s.length s ht

theorem scalarFold_eq : ∀ (replacements : List (List Char × Value)) (t : List Char), scalarFold replacements t = substitute_scalars (scalarBindings replacements) t := by
  intro replacements
  induction replacements with
  | nil => intro t; rfl
  | cons kv rest ih =>
    intro t
    obtain ⟨k, v⟩ := kv
    cases v with
    | scalar sv =>
      show scalarFold rest (replaceAll (placeholder k) sv.render t) = _
      rw [ih]
      rfl
    | list lv =>
      show scalarFold rest t = _
      rw [ih]
      rfl

theorem loopFold_eq : ∀ (replacements : List (List Char × Value)) (t : List Char), loopFold replacements t = expand_loops (listBindings replacements) t := by
  intro replacements
  induction replacements with
  | nil => intro t; rfl
  | cons kv rest ih =>
    intro t
    obtain ⟨k, v⟩ := kv
    cases v with
    | scalar sv =>
      show loopFold rest t = _
      rw [ih]
      rfl
    | list lv =>
      show loopFold rest (_replace_for_loops t k lv) = _
      rw [ih]
      rfl

/-- Claim C1: for every template string and bindings mapping, the render
performs exactly these passes in this order: one scalar-substitution pass
over every non-list binding, then conditional evaluation, then one
loop-expansion pass per list binding in the mapping's original insertion
order with each application's output fed into the next, then conditional
evaluation again, whose result is returned.  Stated as: the source-shaped
`build_string_from_template` equals the spec-shaped pipeline built from
`substitute_scalars` over the scalar bindings and `expand_loops` over the
list bindings. -/
theorem claim_C1 (template : List Char) (replacements : List (List Char × Value)) :
    build_string_from_template template replacements =
      match _evaluate_conditions (substitute_scalars (scalarBindings replacements) template) with
      | Except.error e => Except.error e
      | Except.ok r => _evaluate_conditions (expand_loops (listBindings replacements) r) := by
  unfold build_string_from_template
  rw [scalarFold_eq]
  cases _evaluate_conditions (substitute_scalars (scalarBindings replacements) template) with
  | error e => rfl
  | ok r =>
    show _evaluate_conditions (loopFold replacements r) = _
    rw [loopFold_eq]

/-- Claim C2: the nested dynamic loop example.  Expanding the `outer`
binding materializes the literal tag region `<for grp1>…</for grp1>`
(first conjunct: the intermediate text after `_replace_for_loops` with key
`outer`); processing the later binding `grp1` then expands it (second
conjunct); and the full render of the template with `outer` inserted
before `grp1` returns exactly `"Av1v2"` (third conjunct). -/
theorem claim_C2 :
    _replace_for_loops ("<for outer>\x7b\x7b title \x7d\x7d<for \x7b\x7b inner_key \x7d\x7d>\x7b\x7b x \x7d\x7d</for \x7b\x7b inner_key \x7d\x7d></for outer>".toList) ("outer".toList)
      [[(("inner_key".toList), Scalar.s ("grp1".toList)), (("title".toList), Scalar.s ("A".toList))]]
      = ("A<for grp1>\x7b\x7b x \x7d\x7d</for grp1>".toList)
    ∧ _replace_for_loops ("A<for grp1>\x7b\x7b x \x7d\x7d</for grp1>".toList) ("grp1".toList)
      [[(("x".toList), Scalar.s ("v1".toList))], [(("x".toList), Scalar.s ("v2".toList))]]
      = ("Av1v2".toList)
    ∧ build_string_from_template ("<for outer>\x7b\x7b title \x7d\x7d<for \x7b\x7b inner_key \x7d\x7d>\x7b\x7b x \x7d\x7d</for \x7b\x7b inner_key \x7d\x7d></for outer>".toList)
      [(("outer".toList), Value.list [[(("inner_key".toList), Scalar.s ("grp1".toList)), (("title".toList), Scalar.s ("A".toList))]]),
       (("grp1".toList), Value.list [[(("x".toList), Scalar.s ("v1".toList))], [(("x".toList), Scalar.s ("v2".toList))]])]
      = Except.ok ("Av1v2".toList) := by
  refine ⟨by decide, by decide, by decide⟩

/-- Claim C3: conditional evaluation replaces every matched `<if False>`
region (tags plus body) by the empty string and every matched `<if True>`
region by its body only (first two conjuncts: the per-iteration steps are
exactly the findall-then-replace folds), with the `<if False>` loop run to
completion before the `<if True>` loop begins (third conjunct); and the
template `<if {{ b }}>Y</if {{ b }}>` renders `"Y"` under `b=True` and
`""` under `b=False` (last two conjuncts). -/
theorem claim_C3 :
    (∀ s : List Char, falseStep s =
      match findRegions openFalse closeFalse s with
      | [] => Except.error ("Unmatched <if False> tag")
      | conds => Except.ok (conds.foldl (fun r cond => replaceAll cond.1 [] r) s))
    ∧ (∀ s : List Char, trueStep s =
      match findRegions openTrue closeTrue s with
      | [] => Except.error ("Unmatched <if True> tag")
      | conds => Except.ok (conds.foldl (fun r cond => replaceAll cond.1 cond.2 r) s))
    ∧ (∀ s : List Char, _evaluate_conditions s =
      match falseLoopFuel (s.length + 1) s with
      | Except.error e => Except.error e
      | Except.ok r => trueLoopFuel (r.length + 1) r)
    ∧ build_string_from_template ("<if \x7b\x7b b \x7d\x7d>Y</if \x7b\x7b b \x7d\x7d>".toList) [(("b".toList), Value.scalar (Scalar.b true))] = Except.ok ("Y".toList)
    ∧ build_string_from_template ("<if \x7b\x7b b \x7d\x7d>Y</if \x7b\x7b b \x7d\x7d>".toList) [(("b".toList), Value.scalar (Scalar.b false))] = Except.ok ([]) :=
  ⟨fun _ => rfl, fun _ => rfl, fun _ => rfl, by decide, by decide⟩

/-- Claim C5: loop expansion on a text with a `<for key>` region replaces
the (first) matched region by the concatenation, in list order, of one
instance of the body per element mapping, each instance obtained by
replacing the placeholders named by that element mapping with the element
values' string renderings (names absent from the element mapping are left
unreplaced, which is visible in `instantiateBody`: only the element's own
keys are replaced) — first conjunct, stated as an unconditional equation
whose `some` branch is the fold of instances.  An empty element list
yields the empty expansion (the fold over `[]` is `[]`).  Concretely,
`<for items>{{ n }},</for items>` renders `"1,2,3,"` for
`items=[{n:1},{n:2},{n:3}]` and `""` for `items=[]`. -/
theorem claim_C5 :
    (∀ (text key : List Char) (value : List (List (List Char × Scalar))),
      _replace_for_loops text key value =
        match findForMatch key text with
        | none => text
        | some fb => replaceAll fb.1 (value.foldl (fun acc e => acc ++ instantiateBody fb.2 e) []) text)
    ∧ build_string_from_template ("<for items>\x7b\x7b n \x7d\x7d,</for items>".toList)
        [(("items".toList), Value.list [[(("n".toList), Scalar.i 1)], [(("n".toList), Scalar.i 2)], [(("n".toList), Scalar.i 3)]])]
        = Except.ok ("1,2,3,".toList)
    ∧ build_string_from_template ("<for items>\x7b\x7b n \x7d\x7d,</for items>".toList)
        [(("items".toList), Value.list [])] = Except.ok ([]) := by
  refine ⟨?_, by decide, by decide⟩
  intro text key value
  unfold _replace_for_loops
  cases hm : findForMatch key text with
  | none => rfl
  | some fb =>
    obtain ⟨full, for_body⟩ := fb
    rfl

/-- Claim C7: missing bindings are silently passed through, never an
error.  First conjunct: applying `_replace_for_loops` for a list-valued
key with no matching `<for key>` region returns the text unchanged (the
functions are total, so no error is possible).  Second conjunct: a
placeholder whose name has no binding is left verbatim in the output of a
successful render.  Third conjunct: a list binding with no matching tag in
the text has no effect on the render. -/
theorem claim_C7 :
    (∀ (text key : List Char) (value : List (List (List Char × Scalar))),
      findForMatch key text = none → _replace_for_loops text key value = text)
    ∧ build_string_from_template ("\x7b\x7b x \x7d\x7d".toList) [] = Except.ok ("\x7b\x7b x \x7d\x7d".toList)
    ∧ build_string_from_template ("abc".toList) [(("items".toList), Value.list [[(("n".toList), Scalar.s ("1".toList))]])] = Except.ok ("abc".toList) := by
  refine ⟨?_, by decide, by decide⟩
  intro text key value h
  unfold _replace_for_loops
  rw [h]

/-- Witness for claim C7: the hypothesis of the first conjunct is
satisfiable — on a text with no `<for k>` region, loop expansion returns
the text unchanged. -/
theorem claim_C7_witness : _replace_for_loops ("hello".toList) ("k".toList) [] = ("hello".toList) :=
  claim_C7.1 ("hello".toList) ("k".toList) [] (by decide)

/-- Claim C4 (amended): if the text contains the opener `<if False>` but
the region scan finds no complete region, conditional evaluation raises
the unmatched-tag error (first conjunct).  If the text contains the opener
`<if True>` with no complete region AND contains no `<if False>` opener
(so the first loop leaves the text unchanged), conditional evaluation
raises (second conjunct) — the extra proviso is forced by
`claim_C4_cex`, where an `<if False>` region swallows an orphan
`<if True>` opener and the render returns normally.  The template
`<if True>orphan` makes the whole render raise (third conjunct).  A failed
render produces no result value at all: `Except.error` carries only the
message, never partial text. -/
theorem claim_C4 :
    (∀ s : List Char, containsSub openFalse s = true → findRegions openFalse closeFalse s = [] →
      _evaluate_conditions s = Except.error ("Unmatched <if False> tag"))
    ∧ (∀ s : List Char, containsSub openFalse s = false → containsSub openTrue s = true →
        findRegions openTrue closeTrue s = [] →
        _evaluate_conditions s = Except.error ("Unmatched <if True> tag"))
    ∧ build_string_from_template ("<if True>orphan".toList) [] = Except.error ("Unmatched <if True> tag") := by
  refine ⟨?_, ?_, by decide⟩
  · intro s hc hreg
    have hstep : falseStep s = Except.error ("Unmatched <if False> tag") := by
      unfold falseStep
      rw [hreg]
    unfold _evaluate_conditions
    rw [show falseLoopFuel (s.length + 1) s = Except.error ("Unmatched <if False> tag") by
      simp [falseLoopFuel, hc, hstep]]
  · intro s hf ht hreg
    have hstep : trueStep s = Except.error ("Unmatched <if True> tag") := by
      unfold trueStep
      rw [hreg]
    unfold _evaluate_conditions
    rw [falseLoopFuel_not_contains s.length s hf]
    simp [trueLoopFuel, ht, hstep]

/-- Witness for claim C4: both hypothesis-bearing conjuncts are applied at
concrete inputs — `<if False>a` and `<if True>b` each make conditional
evaluation raise. -/
theorem claim_C4_witness :
    _evaluate_conditions ("<if False>a".toList) = Except.error ("Unmatched <if False> tag")
    ∧ _evaluate_conditions ("<if True>b".toList) = Except.error ("Unmatched <if True> tag") :=
  ⟨claim_C4.1 ("<if False>a".toList) (by decide) (by decide),
   claim_C4.2.1 ("<if True>b".toList) (by decide) (by decide) (by decide)⟩

/-- Counterexample to claim C4 as stated: the text
`<if False><if True></if False>` contains the opener `<if True>` with no
complete `<if True>` region, yet conditional evaluation does not raise —
the `<if False>` pass (which runs first) deletes the whole region,
orphan `<if True>` opener included, and evaluation returns `""`. -/
theorem claim_C4_cex :
    containsSub openTrue ("<if False><if True></if False>".toList) = true
    ∧ findRegions openTrue closeTrue ("<if False><if True></if False>".toList) = []
    ∧ _evaluate_conditions ("<if False><if True></if False>".toList) = Except.ok ([]) := by
  refine ⟨by decide, by decide, by decide⟩

/-- Claim C6 (amended): on every successful render the returned text
contains no occurrence of `<if True>` (the second while loop of
`_evaluate_conditions` returns only once its opener is gone).  The
original claim — no remaining `{{ }}` placeholder, `<if …>` tag or
`<for …>` tag at all — fails because unbound placeholders and tags are
passed through silently; see `claim_C6_cex`. -/
theorem claim_C6 (template : List Char) (replacements : List (List Char × Value)) (out : List Char)
    (h : build_string_from_template template replacements = Except.ok out) :
    containsSub openTrue out = false := by
  unfold build_string_from_template at h
  cases h1 : _evaluate_conditions (scalarFold replacements template) with
  | error e => rw [h1] at h; exact absurd h (by simp)
  | ok r =>
    rw [h1] at h
    exact eval_ok_no_true (loopFold replacements r) out h

/-- Witness for claim C6: a successful concrete render whose output indeed
contains no `<if True>`. -/
theorem claim_C6_witness : containsSub openTrue ("plain".toList) = false :=
  claim_C6 ("plain".toList) [] ("plain".toList) (by decide)

/-- Counterexample to claim C6 as stated: the render of
`{{ x }}<for k>y</for k><if c>z</if c>` with an empty bindings mapping
succeeds and returns the template verbatim, which still contains a
`{{ }}` placeholder, a `<for …>` tag and an `<if …>` tag. -/
theorem claim_C6_cex :
    build_string_from_template ("\x7b\x7b x \x7d\x7d<for k>y</for k><if c>z</if c>".toList) [] =
      Except.ok ("\x7b\x7b x \x7d\x7d<for k>y</for k><if c>z</if c>".toList)
    ∧ containsSub (placeholder ("x".toList)) ("\x7b\x7b x \x7d\x7d<for k>y</for k><if c>z</if c>".toList) = true
    ∧ containsSub ("<for k>".toList) ("\x7b\x7b x \x7d\x7d<for k>y</for k><if c>z</if c>".toList) = true
    ∧ containsSub ("<if c>".toList) ("\x7b\x7b x \x7d\x7d<for k>y</for k><if c>z</if c>".toList) = true := by
  refine ⟨by decide, by decide, by decide, by decide⟩

/-- Claim C8 (amended): conditional evaluation always terminates because
every iteration of either while loop that does not raise strictly
decreases the LENGTH of the text (it strips at least one full tag pair);
this is the measure that bounds both loops (and justifies the canonical
fuel).  The original claim — that each non-raising iteration strictly
decreases the number of occurrences of the opener substring — is false:
removing a region can materialize a fresh opener out of the surrounding
text, see `claim_C8_cex`. -/
theorem claim_C8 :
    (∀ s r : List Char, falseStep s = Except.ok r → r.length < s.length)
    ∧ (∀ s r : List Char, trueStep s = Except.ok r → r.length < s.length) :=
  ⟨falseStep_ok_lt, trueStep_ok_lt⟩

/-- Witness for claim C8: a concrete non-raising iteration, with its
strict length decrease. -/
theorem claim_C8_witness :
    falseStep ("<if False>x</if False>".toList) = Except.ok ([])
    ∧ ([] : List Char).length < ("<if False>x</if False>".toList).length :=
  ⟨by decide, claim_C8.1 ("<if False>x</if False>".toList) [] (by decide)⟩

/-- Counterexample to claim C8 as stated: on
`<if Fal<if False>x</if False>se>` one iteration of the `<if False>` loop
does not raise, yet the number of occurrences of the opener `<if False>`
does not decrease (it is 1 before and 1 after: deleting the inner region
glues `<if Fal` and `se>` into a fresh opener).  The loop then raises on
the next iteration. -/
theorem claim_C8_cex :
    falseStep ("<if Fal<if False>x</if False>se>".toList) = Except.ok ("<if False>".toList)
    ∧ countSub openFalse ("<if Fal<if False>x</if False>se>".toList) = 1
    ∧ countSub openFalse ("<if False>".toList) = 1
    ∧ _evaluate_conditions ("<if Fal<if False>x</if False>se>".toList) = Except.error ("Unmatched <if False> tag") := by
  refine ⟨by decide, by decide, by decide, by decide⟩

/-- Claim C9 (amended): on every text where `_evaluate_conditions`
returns a result, that result contains no `<if True>` substring, and —
provided it also contains no `<if False>` substring — applying
`_evaluate_conditions` to it again returns it unchanged.  The original
claim fails because the `<if True>` pass can materialize a fresh
`<if False>` opener out of junction text, making a second application
raise instead; see `claim_C9_cex`. -/
theorem claim_C9 (s out : List Char) (h : _evaluate_conditions s = Except.ok out) :
    containsSub openTrue out = false
    ∧ (containsSub openFalse out = false → _evaluate_conditions out = Except.ok out) := by
  have ht := eval_ok_no_true s out h
  exact ⟨ht, fun hf => eval_not_contains out hf ht⟩

/-- Witness for claim C9: applied to `<if True>Y</if True>`, whose
evaluation returns `"Y"`; the result has no `<if True>`, and evaluating it
again returns it unchanged. -/
theorem claim_C9_witness :
    containsSub openTrue ("Y".toList) = false
    ∧ _evaluate_conditions ("Y".toList) = Except.ok ("Y".toList) :=
  ⟨(claim_C9 ("<if True>Y</if True>".toList) ("Y".toList) (by decide)).1,
   (claim_C9 ("<if True>Y</if True>".toList) ("Y".toList) (by decide)).2 (by decide)⟩

/-- Counterexample to claim C9 as stated: evaluating
`<if True><if Fal</if True>se>x` succeeds with result `<if False>x`
(stripping the `<if True>` tags glues `<if Fal` and `se>` into a fresh
`<if False>`), so a successful result CAN contain `<if False>`; applying
`_evaluate_conditions` again does not return it unchanged — it raises. -/
theorem claim_C9_cex :
    _evaluate_conditions ("<if True><if Fal</if True>se>x".toList) = Except.ok ("<if False>x".toList)
    ∧ containsSub openFalse ("<if False>x".toList) = true
    ∧ _evaluate_conditions ("<if False>x".toList) = Except.error ("Unmatched <if False> tag") := by
  refine ⟨by decide, by decide, by decide⟩

/-- Claim C10 (amended): the initial scalar-substitution pass is global
over the whole working text — each non-list binding performs one
`replaceAll` of its placeholder over the entire template, loop bodies
included (first conjunct), and the loop pass only runs afterwards, on the
already-substituted text (second conjunct).  Consequently, when
`{{ name }}` occurs literally inside a loop body and `name` is bound to an
outer scalar, the outer scalar wins and the element-mapping value for that
name has no effect (third conjunct, where the output is `OUT`, not `IN`).
The original claim's final clause — that the element-mapping value is
NEVER used — is too strong: element-local substitution can materialize a
fresh occurrence of the placeholder inside an instance, which a later
element key then fills; see `claim_C10_cex`. -/
theorem claim_C10 :
    (∀ (name : List Char) (sval : Scalar) (rest : List (List Char × Value)) (t : List Char),
      scalarFold ((name, Value.scalar sval) :: rest) t = scalarFold rest (replaceAll (placeholder name) sval.render t))
    ∧ (∀ (template : List Char) (replacements : List (List Char × Value)),
      build_string_from_template template replacements =
        match _evaluate_conditions (scalarFold replacements template) with
        | Except.error e => Except.error e
        | Except.ok r => _evaluate_conditions (loopFold replacements r))
    ∧ build_string_from_template ("<for items>\x7b\x7b t \x7d\x7d</for items>".toList)
        [(("t".toList), Value.scalar (Scalar.s ("OUT".toList))),
         (("items".toList), Value.list [[(("t".toList), Scalar.s ("IN".toList))]])]
        = Except.ok ("OUT".toList) :=
  ⟨fun _ _ _ _ => rfl, fun _ _ => rfl, by decide⟩

/-- Counterexample to claim C10 as stated: with template
`<for items>{{ u }} }}</for items>`, outer scalar binding `t = "OUT"` and
element mapping `{u: "{{ t", t: …}`, substituting `u` materializes a fresh
`{{ t }}` inside the loop instance, which the element's own `t` entry then
fills — the output tracks the element-mapping value of `t` (`IN` versus
`ZZ`), even though `t` is bound to a non-list value in the outer mapping,
so the element-mapping value for `t` IS used. -/
theorem claim_C10_cex :
    build_string_from_template ("<for items>\x7b\x7b u \x7d\x7d \x7d\x7d</for items>".toList)
      [(("t".toList), Value.scalar (Scalar.s ("OUT".toList))),
       (("items".toList), Value.list [[(("u".toList), Scalar.s ("\x7b\x7b t".toList)), (("t".toList), Scalar.s ("IN".toList))]])]
      = Except.ok ("IN".toList)
    ∧ build_string_from_template ("<for items>\x7b\x7b u \x7d\x7d \x7d\x7d</for items>".toList)
      [(("t".toList), Value.scalar (Scalar.s ("OUT".toList))),
       (("items".toList), Value.list [[(("u".toList), Scalar.s ("\x7b\x7b t".toList)), (("t".toList), Scalar.s ("ZZ".toList))]])]
      = Except.ok ("ZZ".toList) := by
  refine ⟨by decide, by decide⟩
